import Mathlib

/-!
Shallow embedding of the distributed rate limiter bundled in this repository
(PHP sources under `challenges/php/002-distributed-rate-limiter/solution/src`):
the in-memory storage backend, the three admission-control algorithms
(fixed window, sliding window log, token bucket), the configuration object,
the decision value object and the orchestrator.

Modelling conventions:
* PHP `float` time values and token counts are modelled as `ℚ` (exact).
* PHP `int` is modelled as `ℤ`.
* The storage's mutable maps are modelled as functions out of `String`;
  a missing array entry is `none` / `[]`.
* The clock (`microtime(true)` / `setTimeOverride`) is modelled as the
  explicit `time` field of the storage state: `getTime` reads it, nothing
  in the modelled code writes it.
* PHP `time()` (the orchestrator's wall clock, used only on the storage
  unavailable path and in `getRetryAfter`) is passed explicitly.
-/

namespace RL

/-- One entry of `InMemoryStorage::$counters`: `['value' => int, 'expires' => float]`. -/
structure Counter where
  value : Int
  expires : ℚ
deriving DecidableEq

/-- One entry of `InMemoryStorage::$timestamps[$key]`:
`['timestamp' => float, 'expires' => float]`. -/
structure TsEntry where
  timestamp : ℚ
  expires : ℚ
deriving DecidableEq

/-- One entry of `InMemoryStorage::$buckets`:
`['tokens' => float, 'lastRefill' => float, 'expires' => float, 'maxTokens' => int]`. -/
structure Bucket where
  tokens : ℚ
  lastRefill : ℚ
  expires : ℚ
  maxTokens : Int
deriving DecidableEq

/-- State of `InMemoryStorage` (plus the injected clock as `time`). -/
@[ext]
structure InMemoryStorage where
  counters : String → Option Counter
  timestamps : String → List TsEntry
  buckets : String → Option Bucket
  available : Bool
  time : ℚ

/-- The live (non-expired) view of a counter entry at time `t`:
an entry with `expires < t` is treated as absent. -/
def liveC (t : ℚ) : Option Counter → Option Counter
  | none => none
  | some c => if c.expires < t then none else some c

/-- The live view of a timestamp list at time `t`: keeps entries with `expires >= t`. -/
def liveT (t : ℚ) (l : List TsEntry) : List TsEntry :=
  l.filter fun e => decide (t ≤ e.expires)

/-- The live view of a bucket entry at time `t`. -/
def liveB (t : ℚ) : Option Bucket → Option Bucket
  | none => none
  | some b => if b.expires < t then none else some b

/-- `InMemoryStorage::getTime` (with the clock modelled as the `time` field). -/
def InMemoryStorage.getTime (s : InMemoryStorage) : ℚ := s.time

/-- `InMemoryStorage::isAvailable`. -/
def InMemoryStorage.isAvailable (s : InMemoryStorage) : Bool := s.available

/-- `InMemoryStorage::cleanupExpired`: drops every expired entry from the three
maps (pointwise, since the maps are modelled as functions). -/
def InMemoryStorage.cleanupExpired (s : InMemoryStorage) (now : ℚ) : InMemoryStorage :=
  { s with
    counters := fun k => liveC now (s.counters k)
    timestamps := fun k => liveT now (s.timestamps k)
    buckets := fun k => liveB now (s.buckets k) }

/-- `InMemoryStorage::increment`: add `value` to the counter at `key`
(creating it at 0 with expiry `now + ttl` if absent or expired) and return
the new value.  Note the expiry of an existing unexpired counter is kept. -/
def InMemoryStorage.increment (s : InMemoryStorage) (key : String) (value : Int)
    (ttl : ℚ) : Int × InMemoryStorage :=
  let now := s.getTime
  let s1 := s.cleanupExpired now
  let base : Counter :=
    match s1.counters key with
    | none => { value := 0, expires := now + ttl }
    | some c => if c.expires < now then { value := 0, expires := now + ttl } else c
  let updated : Counter := { base with value := base.value + value }
  (updated.value,
    { s1 with counters := fun k => if k = key then some updated else s1.counters k })

/-- `InMemoryStorage::get`. -/
def InMemoryStorage.get (s : InMemoryStorage) (key : String) : Option Int × InMemoryStorage :=
  let now := s.getTime
  let s1 := s.cleanupExpired now
  (match s1.counters key with
   | none => none
   | some c => if c.expires < now then none else some c.value, s1)

/-- `InMemoryStorage::setNx`. -/
def InMemoryStorage.setNx (s : InMemoryStorage) (key : String) (value : Int)
    (ttl : ℚ) : Bool × InMemoryStorage :=
  let now := s.getTime
  let s1 := s.cleanupExpired now
  match s1.counters key with
  | some c =>
    if now ≤ c.expires then (false, s1)
    else (true, { s1 with counters := fun k =>
        if k = key then some { value := value, expires := now + ttl } else s1.counters k })
  | none =>
    (true, { s1 with counters := fun k =>
        if k = key then some { value := value, expires := now + ttl } else s1.counters k })

/-- `InMemoryStorage::addTimestamp`: appends `['timestamp' => ts, 'expires' => ts + ttl]`. -/
def InMemoryStorage.addTimestamp (s : InMemoryStorage) (key : String)
    (timestamp ttl : ℚ) : InMemoryStorage :=
  let now := s.getTime
  let s1 := s.cleanupExpired now
  { s1 with timestamps := fun k =>
      if k = key then s1.timestamps k ++ [⟨timestamp, timestamp + ttl⟩]
      else s1.timestamps k }

/-- `InMemoryStorage::countTimestamps`: counts entries with
`min <= timestamp <= max` and `expires >= now`. -/
def InMemoryStorage.countTimestamps (s : InMemoryStorage) (key : String)
    (min max : ℚ) : Int × InMemoryStorage :=
  let now := s.getTime
  let s1 := s.cleanupExpired now
  (((s1.timestamps key).filter fun e =>
      decide (min ≤ e.timestamp) && decide (e.timestamp ≤ max) &&
        decide (now ≤ e.expires)).length,
   s1)

/-- `InMemoryStorage::removeTimestampsBefore`: keeps entries with
`timestamp >= cutoff` and `expires >= now` at `key` (no global cleanup here). -/
def InMemoryStorage.removeTimestampsBefore (s : InMemoryStorage) (key : String)
    (cutoff : ℚ) : InMemoryStorage :=
  let now := s.getTime
  { s with timestamps := fun k =>
      if k = key then
        (s.timestamps k).filter fun e =>
          decide (cutoff ≤ e.timestamp) && decide (now ≤ e.expires)
      else s.timestamps k }

/-- `InMemoryStorage::decrementToken`: initialize the bucket full if absent or
expired, refill from elapsed time at rate `maxTokens / (ttl / 2)`, clamp to
capacity, then consume `tokens` if available.  The `lastRefillTime` and
`newRefillTime` parameters are unused, exactly as in the source. -/
def InMemoryStorage.decrementToken (s : InMemoryStorage) (key : String) (tokens : Int)
    (lastRefillTime newRefillTime : ℚ) (maxTokens : Int) (ttl : ℚ) :
    Bool × InMemoryStorage :=
  let now := s.getTime
  let s1 := s.cleanupExpired now
  let bucket0 : Bucket :=
    match s1.buckets key with
    | none => { tokens := (maxTokens : ℚ), lastRefill := now, expires := now + ttl,
                maxTokens := maxTokens }
    | some b =>
      if b.expires < now then
        { tokens := (maxTokens : ℚ), lastRefill := now, expires := now + ttl,
          maxTokens := maxTokens }
      else b
  let elapsed := now - bucket0.lastRefill
  let refillRate := (maxTokens : ℚ) / (ttl / 2)
  let tokensToAdd := elapsed * refillRate
  let bucket1 : Bucket :=
    { bucket0 with tokens := min (maxTokens : ℚ) (bucket0.tokens + tokensToAdd),
                   lastRefill := now }
  if (tokens : ℚ) ≤ bucket1.tokens then
    let bucket2 : Bucket := { bucket1 with tokens := bucket1.tokens - (tokens : ℚ) }
    (true, { s1 with buckets := fun k => if k = key then some bucket2 else s1.buckets k })
  else
    (false, { s1 with buckets := fun k => if k = key then some bucket1 else s1.buckets k })

/-- Value of one `metadata` map entry of a decision. -/
inductive MetaVal where
  | int (i : Int)
  | rat (q : ℚ)
  | bool (b : Bool)
  | str (s : String)
deriving DecidableEq

/-- `RateLimitDecision`. -/
structure RateLimitDecision where
  allowed : Bool
  limit : Int
  remaining : Int
  resetTime : Int
  algorithm : String
  reason : String
  metadata : List (String × MetaVal)
deriving DecidableEq

/-- `RateLimitDecision::getHeaders`. -/
def RateLimitDecision.getHeaders (d : RateLimitDecision) : List (String × String) :=
  [("X-RateLimit-Limit", toString d.limit),
   ("X-RateLimit-Remaining", toString (max 0 d.remaining)),
   ("X-RateLimit-Reset", toString d.resetTime)]

/-- `RateLimitDecision::getRetryAfter` (PHP `time()` passed as `now`). -/
def RateLimitDecision.getRetryAfter (d : RateLimitDecision) (now : Int) : Int :=
  max 1 (d.resetTime - now)

/-- The three `AlgorithmInterface` implementations. -/
inductive Algorithm where
  | fixedWindow
  | slidingWindow
  | tokenBucket
deriving DecidableEq

/-- `getName` of each algorithm. -/
def Algorithm.getName : Algorithm → String
  | .fixedWindow => "fixed_window"
  | .slidingWindow => "sliding_window"
  | .tokenBucket => "token_bucket"

/-- `RateLimitConfig` (the field `keyPref` models the source's key prefix
option used for multi-tenancy). -/
structure RateLimitConfig where
  limit : Int
  windowSeconds : Int
  algorithm : Algorithm
  failClosed : Bool
  keyPref : Option String
deriving DecidableEq

/-- `RateLimitConfig::__construct`: validation, throwing
`InvalidArgumentException` on non-positive limit or window. -/
def mkRateLimitConfig (limit windowSeconds : Int) (algorithm : Algorithm)
    (failClosed : Bool) (keyPref : Option String) : Except String RateLimitConfig :=
  if limit ≤ 0 then .error "Limit must be positive"
  else if windowSeconds ≤ 0 then .error "Window seconds must be positive"
  else .ok ⟨limit, windowSeconds, algorithm, failClosed, keyPref⟩

/-- `RateLimitConfig::getKey`. -/
def RateLimitConfig.getKey (config : RateLimitConfig) (identifier : String) : String :=
  match config.keyPref with
  | none => identifier
  | some p => p ++ ":" ++ identifier

/-- `FixedWindowAlgorithm::check`. -/
def FixedWindowAlgorithm.check (key : String) (config : RateLimitConfig)
    (storage : InMemoryStorage) : RateLimitDecision × InMemoryStorage :=
  let now := storage.getTime
  let windowIndex : Int := ⌊now / (config.windowSeconds : ℚ)⌋
  let windowKey := key ++ ":fw:" ++ toString windowIndex
  let r := storage.increment windowKey 1 ((config.windowSeconds : ℚ) * 2)
  let count := r.1
  let windowStart := windowIndex * config.windowSeconds
  let windowEnd := windowStart + config.windowSeconds
  let resetTime : Int := ⌈(windowEnd : ℚ)⌉
  let remaining := config.limit - count
  if count ≤ config.limit then
    ({ allowed := true, limit := config.limit, remaining := max 0 remaining,
       resetTime := resetTime, algorithm := "fixed_window",
       reason := "Request within fixed window limit",
       metadata := [("window_index", .int windowIndex), ("window_count", .int count)] },
     r.2)
  else
    ({ allowed := false, limit := config.limit, remaining := 0,
       resetTime := resetTime, algorithm := "fixed_window",
       reason := "Fixed window limit exceeded",
       metadata := [("window_index", .int windowIndex), ("window_count", .int count)] },
     r.2)

/-- `SlidingWindowAlgorithm::check`. -/
def SlidingWindowAlgorithm.check (key : String) (config : RateLimitConfig)
    (storage : InMemoryStorage) : RateLimitDecision × InMemoryStorage :=
  let now := storage.getTime
  let windowStart := now - (config.windowSeconds : ℚ)
  let windowKey := key ++ ":sw"
  let s1 := storage.removeTimestampsBefore windowKey windowStart
  let r := s1.countTimestamps windowKey windowStart now
  let currentCount := r.1
  if currentCount < config.limit then
    let s2 := r.2.addTimestamp windowKey now ((config.windowSeconds : ℚ) * 2)
    let resetTime : Int := ⌈now + (config.windowSeconds : ℚ)⌉
    ({ allowed := true, limit := config.limit,
       remaining := config.limit - currentCount - 1,
       resetTime := resetTime, algorithm := "sliding_window",
       reason := "Request within sliding window limit",
       metadata := [("window_count", .int (currentCount + 1)),
                    ("window_start", .rat windowStart)] },
     s2)
  else
    let resetTime : Int := ⌈now + (config.windowSeconds : ℚ)⌉
    ({ allowed := false, limit := config.limit, remaining := 0,
       resetTime := resetTime, algorithm := "sliding_window",
       reason := "Sliding window limit exceeded",
       metadata := [("window_count", .int currentCount),
                    ("window_start", .rat windowStart)] },
     r.2)

/-- `TokenBucketAlgorithm::check`. -/
def TokenBucketAlgorithm.check (key : String) (config : RateLimitConfig)
    (storage : InMemoryStorage) : RateLimitDecision × InMemoryStorage :=
  let now := storage.getTime
  let bucketKey := key ++ ":bucket"
  let refillRate := (config.limit : ℚ) / (config.windowSeconds : ℚ)
  let r := storage.decrementToken bucketKey 1 (now - 1) now config.limit
    ((config.windowSeconds : ℚ) * 2)
  if r.1 then
    ({ allowed := true, limit := config.limit, remaining := 0,
       resetTime := ⌈now + 1 / refillRate⌉, algorithm := "token_bucket",
       reason := "Token consumed from bucket",
       metadata := [("refill_rate_per_sec", .rat refillRate),
                    ("bucket_capacity", .int config.limit)] },
     r.2)
  else
    ({ allowed := false, limit := config.limit, remaining := 0,
       resetTime := ⌈now + 1 / refillRate⌉, algorithm := "token_bucket",
       reason := "Bucket empty, tokens refilling",
       metadata := [("refill_rate_per_sec", .rat refillRate),
                    ("estimated_wait_seconds", .rat (1 / refillRate))] },
     r.2)

/-- Dynamic dispatch on the `AlgorithmInterface` instance. -/
def Algorithm.check : Algorithm → String → RateLimitConfig → InMemoryStorage →
    RateLimitDecision × InMemoryStorage
  | .fixedWindow => FixedWindowAlgorithm.check
  | .slidingWindow => SlidingWindowAlgorithm.check
  | .tokenBucket => TokenBucketAlgorithm.check

/-- `RateLimiter::handleStorageUnavailable` (`wallNow` models PHP `time()`). -/
def handleStorageUnavailable (config : RateLimitConfig) (wallNow : Int) :
    RateLimitDecision :=
  if config.failClosed then
    { allowed := false, limit := config.limit, remaining := 0,
      resetTime := wallNow + config.windowSeconds, algorithm := "unknown",
      reason := "Storage unavailable - fail closed",
      metadata := [("fail_closed", .bool true)] }
  else
    { allowed := true, limit := config.limit, remaining := config.limit,
      resetTime := wallNow + config.windowSeconds, algorithm := "unknown",
      reason := "Storage unavailable - fail open",
      metadata := [("fail_open", .bool true)] }

/-- `RateLimiter::emitMetrics`: each registered hook (modelled by an
identifier) is invoked once, in registration order, with the decision. -/
def emitMetrics (hooks : List Nat) (decision : RateLimitDecision) :
    List (Nat × RateLimitDecision) :=
  hooks.map fun h => (h, decision)

/-- `RateLimiter::check`: availability gate, delegation, metrics fan-out.
Returns the decision, the resulting storage state, and the hook invocations. -/
def RateLimiter.check (hooks : List Nat) (storage : InMemoryStorage) (wallNow : Int)
    (identifier : String) (config : RateLimitConfig) :
    RateLimitDecision × InMemoryStorage × List (Nat × RateLimitDecision) :=
  if !storage.isAvailable then
    let decision := handleStorageUnavailable config wallNow
    (decision, storage, emitMetrics hooks decision)
  else
    let key := config.getKey identifier
    let r := config.algorithm.check key config storage
    (r.1, r.2, emitMetrics hooks r.1)

/-- An entirely empty storage whose clock reads `t`. -/
def freshStorage (t : ℚ) : InMemoryStorage :=
  { counters := fun _ => none, timestamps := fun _ => [], buckets := fun _ => none,
    available := true, time := t }

end RL


/-! ### Derived explicit forms of the storage operations -/

namespace RL

/-- Value a counter read yields at time `t` (0 when absent or expired). -/
def liveValue (t : ℚ) (oc : Option Counter) : Int :=
  match liveC t oc with
  | none => 0
  | some c => c.value

/-- Expiry an `increment` leaves behind: kept when live, `dflt` when created. -/
def liveExpiry (t : ℚ) (oc : Option Counter) (dflt : ℚ) : ℚ :=
  match liveC t oc with
  | none => dflt
  | some c => c.expires

theorem increment_eq (s : InMemoryStorage) (key : String) (v : Int) (ttl : ℚ) :
    s.increment key v ttl =
      (liveValue s.time (s.counters key) + v,
       { counters := fun k =>
           if k = key then
             some { value := liveValue s.time (s.counters key) + v,
                    expires := liveExpiry s.time (s.counters key) (s.time + ttl) }
           else liveC s.time (s.counters k)
         timestamps := fun k => liveT s.time (s.timestamps k)
         buckets := fun k => liveB s.time (s.buckets k)
         available := s.available
         time := s.time }) := by
  cases hc : s.counters key with
  | none =>
    simp [InMemoryStorage.increment, InMemoryStorage.cleanupExpired,
      InMemoryStorage.getTime, liveC, liveValue, liveExpiry, hc]
  | some c =>
    by_cases he : c.expires < s.time
    · simp [InMemoryStorage.increment, InMemoryStorage.cleanupExpired,
        InMemoryStorage.getTime, liveC, liveValue, liveExpiry, hc, he]
    · simp [InMemoryStorage.increment, InMemoryStorage.cleanupExpired,
        InMemoryStorage.getTime, liveC, liveValue, liveExpiry, hc, he]

theorem addTimestamp_eq (s : InMemoryStorage) (key : String) (timestamp ttl : ℚ) :
    s.addTimestamp key timestamp ttl =
      { counters := fun k => liveC s.time (s.counters k)
        timestamps := fun k =>
          if k = key then liveT s.time (s.timestamps key) ++ [⟨timestamp, timestamp + ttl⟩]
          else liveT s.time (s.timestamps k)
        buckets := fun k => liveB s.time (s.buckets k)
        available := s.available
        time := s.time } := by
  simp only [InMemoryStorage.addTimestamp, InMemoryStorage.cleanupExpired,
    InMemoryStorage.getTime]
  congr 1
  funext k
  by_cases hk : k = key
  · subst hk; simp
  · simp [hk]

theorem removeTimestampsBefore_eq (s : InMemoryStorage) (key : String) (cutoff : ℚ) :
    s.removeTimestampsBefore key cutoff =
      { s with timestamps := fun k =>
          if k = key then
            (s.timestamps key).filter fun e =>
              decide (cutoff ≤ e.timestamp) && decide (s.time ≤ e.expires)
          else s.timestamps k } := by
  simp only [InMemoryStorage.removeTimestampsBefore, InMemoryStorage.getTime]
  congr 1
  funext k
  by_cases hk : k = key
  · subst hk; simp
  · simp [hk]

theorem countTimestamps_eq (s : InMemoryStorage) (key : String) (min max : ℚ) :
    s.countTimestamps key min max =
      ((((s.timestamps key).filter fun e =>
          decide (min ≤ e.timestamp) && decide (e.timestamp ≤ max) &&
            decide (s.time ≤ e.expires)).length : Int),
       s.cleanupExpired s.time) := by
  simp only [InMemoryStorage.countTimestamps, InMemoryStorage.getTime,
    InMemoryStorage.cleanupExpired, liveT, List.filter_filter]
  simp [Bool.and_assoc, Bool.and_self]

end RL

namespace RL

theorem liveC_liveC {t t' : ℚ} (h : t ≤ t') (o : Option Counter) :
    liveC t' (liveC t o) = liveC t' o := by
  cases o with
  | none => rfl
  | some c =>
    by_cases he : c.expires < t
    · have : c.expires < t' := lt_of_lt_of_le he h
      simp [liveC, he, this]
    · simp [liveC, he]

theorem liveT_liveT {t t' : ℚ} (h : t ≤ t') (l : List TsEntry) :
    liveT t' (liveT t l) = liveT t' l := by
  simp only [liveT, List.filter_filter]
  apply List.filter_congr
  intro e _
  by_cases he : t' ≤ e.expires
  · have : t ≤ e.expires := le_trans h he
    simp [he, this]
  · simp [he]

theorem liveB_liveB {t t' : ℚ} (h : t ≤ t') (o : Option Bucket) :
    liveB t' (liveB t o) = liveB t' o := by
  cases o with
  | none => rfl
  | some b =>
    by_cases he : b.expires < t
    · have : b.expires < t' := lt_of_lt_of_le he h
      simp [liveB, he, this]
    · simp [liveB, he]

/-- The bucket `decrementToken` starts from: the stored one when live,
a fresh full one otherwise. -/
def liveBucket (t : ℚ) (ob : Option Bucket) (maxTokens : Int) (ttl : ℚ) : Bucket :=
  match liveB t ob with
  | none => { tokens := (maxTokens : ℚ), lastRefill := t, expires := t + ttl,
              maxTokens := maxTokens }
  | some b => b

theorem decrementToken_eq (s : InMemoryStorage) (key : String) (tokens : Int)
    (lastRefillTime newRefillTime : ℚ) (maxTokens : Int) (ttl : ℚ) :
    s.decrementToken key tokens lastRefillTime newRefillTime maxTokens ttl =
      (let b0 := liveBucket s.time (s.buckets key) maxTokens ttl
       let newTokens :=
         min (maxTokens : ℚ)
           (b0.tokens + (s.time - b0.lastRefill) * ((maxTokens : ℚ) / (ttl / 2)))
       (decide ((tokens : ℚ) ≤ newTokens),
        { counters := fun k => liveC s.time (s.counters k)
          timestamps := fun k => liveT s.time (s.timestamps k)
          buckets := fun k =>
            if k = key then
              some { tokens := if (tokens : ℚ) ≤ newTokens then newTokens - (tokens : ℚ)
                               else newTokens,
                     lastRefill := s.time, expires := b0.expires,
                     maxTokens := b0.maxTokens }
            else liveB s.time (s.buckets k)
          available := s.available
          time := s.time })) := by
  cases hb : s.buckets key with
  | none =>
    simp only [InMemoryStorage.decrementToken, InMemoryStorage.cleanupExpired,
      InMemoryStorage.getTime, liveBucket, liveB, hb]
    split <;> rename_i hc <;> simp [hc] <;> simp at hc <;> omega
  | some b =>
    by_cases he : b.expires < s.time
    · simp only [InMemoryStorage.decrementToken, InMemoryStorage.cleanupExpired,
        InMemoryStorage.getTime, liveBucket, liveB, hb, if_pos he]
      split <;> rename_i hc <;> simp [hc] <;> simp at hc <;> omega
    · simp only [InMemoryStorage.decrementToken, InMemoryStorage.cleanupExpired,
        InMemoryStorage.getTime, liveBucket, liveB, hb, if_neg he]
      split <;> rename_i hc <;> simp [hc]

end RL

namespace RL

theorem fixedWindow_check_eq (key : String) (config : RateLimitConfig)
    (s : InMemoryStorage) :
    FixedWindowAlgorithm.check key config s =
      (let i : Int := ⌊s.time / (config.windowSeconds : ℚ)⌋
       let wk := key ++ ":fw:" ++ toString i
       let cnt := liveValue s.time (s.counters wk) + 1
       ((if cnt ≤ config.limit then
           { allowed := true, limit := config.limit,
             remaining := max 0 (config.limit - cnt),
             resetTime := (i + 1) * config.windowSeconds, algorithm := "fixed_window",
             reason := "Request within fixed window limit",
             metadata := [("window_index", .int i), ("window_count", .int cnt)] }
         else
           { allowed := false, limit := config.limit, remaining := 0,
             resetTime := (i + 1) * config.windowSeconds, algorithm := "fixed_window",
             reason := "Fixed window limit exceeded",
             metadata := [("window_index", .int i), ("window_count", .int cnt)] }),
        { counters := fun k =>
            if k = wk then
              some { value := cnt,
                     expires := liveExpiry s.time (s.counters wk)
                       (s.time + (config.windowSeconds : ℚ) * 2) }
            else liveC s.time (s.counters k)
          timestamps := fun k => liveT s.time (s.timestamps k)
          buckets := fun k => liveB s.time (s.buckets k)
          available := s.available
          time := s.time })) := by
  simp only [FixedWindowAlgorithm.check, InMemoryStorage.getTime, increment_eq]
  split <;> rename_i h <;> simp [h, add_one_mul] <;>
    rw [← Int.cast_mul, Int.ceil_intCast]

end RL

namespace RL

theorem liveC_idem (t : ℚ) (o : Option Counter) : liveC t (liveC t o) = liveC t o :=
  liveC_liveC le_rfl o

theorem liveT_idem (t : ℚ) (l : List TsEntry) : liveT t (liveT t l) = liveT t l :=
  liveT_liveT le_rfl l

theorem liveB_idem (t : ℚ) (o : Option Bucket) : liveB t (liveB t o) = liveB t o :=
  liveB_liveB le_rfl o

theorem ite_else_same {α : Sort _} (c : Prop) [Decidable c] (x y z : α) :
    (if c then x else (if c then y else z)) = if c then x else z := by
  by_cases h : c <;> simp [h]

theorem liveT_filter_absorb (t : ℚ) (p : TsEntry → Bool) (l : List TsEntry) :
    liveT t (l.filter fun e => p e && decide (t ≤ e.expires)) =
      l.filter fun e => p e && decide (t ≤ e.expires) := by
  simp only [liveT, List.filter_filter]
  apply List.filter_congr
  intro e _
  cases hp : p e <;> cases hq : decide (t ≤ e.expires) <;> simp_all

theorem filter_window_absorb (t ws : ℚ) (l : List TsEntry) :
    ((l.filter fun e => decide (ws ≤ e.timestamp) && decide (t ≤ e.expires)).filter
        fun e => decide (ws ≤ e.timestamp) && decide (e.timestamp ≤ t) &&
          decide (t ≤ e.expires)) =
      l.filter fun e => decide (ws ≤ e.timestamp) && decide (e.timestamp ≤ t) &&
        decide (t ≤ e.expires) := by
  simp only [List.filter_filter]
  apply List.filter_congr
  intro e _
  cases h1 : decide (ws ≤ e.timestamp) <;> cases h2 : decide (e.timestamp ≤ t) <;>
    cases h3 : decide (t ≤ e.expires) <;> simp_all

theorem slidingWindow_check_eq (key : String) (config : RateLimitConfig)
    (s : InMemoryStorage) :
    SlidingWindowAlgorithm.check key config s =
      (let w := (config.windowSeconds : ℚ)
       let wk := key ++ ":sw"
       let kept := (s.timestamps wk).filter fun e =>
         decide (s.time - w ≤ e.timestamp) && decide (s.time ≤ e.expires)
       let cnt : Int := (((s.timestamps wk).filter fun e =>
         decide (s.time - w ≤ e.timestamp) && decide (e.timestamp ≤ s.time) &&
           decide (s.time ≤ e.expires)).length : Int)
       ((if cnt < config.limit then
           { allowed := true, limit := config.limit,
             remaining := config.limit - cnt - 1,
             resetTime := ⌈s.time + w⌉, algorithm := "sliding_window",
             reason := "Request within sliding window limit",
             metadata := [("window_count", .int (cnt + 1)),
                          ("window_start", .rat (s.time - w))] }
         else
           { allowed := false, limit := config.limit, remaining := 0,
             resetTime := ⌈s.time + w⌉, algorithm := "sliding_window",
             reason := "Sliding window limit exceeded",
             metadata := [("window_count", .int cnt),
                          ("window_start", .rat (s.time - w))] }),
        { counters := fun k => liveC s.time (s.counters k)
          timestamps := fun k =>
            if k = wk then
              if cnt < config.limit then kept ++ [⟨s.time, s.time + w * 2⟩] else kept
            else liveT s.time (s.timestamps k)
          buckets := fun k => liveB s.time (s.buckets k)
          available := s.available
          time := s.time })) := by
  simp only [SlidingWindowAlgorithm.check, removeTimestampsBefore_eq,
    countTimestamps_eq, addTimestamp_eq, InMemoryStorage.cleanupExpired,
    InMemoryStorage.getTime]
  simp only [eq_self_iff_true, if_true, filter_window_absorb, liveT_filter_absorb,
    apply_ite (liveT s.time), liveC_idem, liveT_idem, liveB_idem, ite_else_same]
  split <;> rename_i h <;> simp only [h, if_true, if_false, ite_else_same]

end RL

namespace RL

theorem tokenBucket_check_eq (key : String) (config : RateLimitConfig)
    (s : InMemoryStorage) :
    TokenBucketAlgorithm.check key config s =
      (let rate := (config.limit : ℚ) / (config.windowSeconds : ℚ)
       let bk := key ++ ":bucket"
       let b0 := liveBucket s.time (s.buckets bk) config.limit
         ((config.windowSeconds : ℚ) * 2)
       let newTokens := min (config.limit : ℚ)
         (b0.tokens + (s.time - b0.lastRefill) * rate)
       ((if (1 : ℚ) ≤ newTokens then
           { allowed := true, limit := config.limit, remaining := 0,
             resetTime := ⌈s.time + 1 / rate⌉, algorithm := "token_bucket",
             reason := "Token consumed from bucket",
             metadata := [("refill_rate_per_sec", .rat rate),
                          ("bucket_capacity", .int config.limit)] }
         else
           { allowed := false, limit := config.limit, remaining := 0,
             resetTime := ⌈s.time + 1 / rate⌉, algorithm := "token_bucket",
             reason := "Bucket empty, tokens refilling",
             metadata := [("refill_rate_per_sec", .rat rate),
                          ("estimated_wait_seconds", .rat (1 / rate))] }),
        { counters := fun k => liveC s.time (s.counters k)
          timestamps := fun k => liveT s.time (s.timestamps k)
          buckets := fun k =>
            if k = bk then
              some { tokens := if (1 : ℚ) ≤ newTokens then newTokens - 1 else newTokens,
                     lastRefill := s.time, expires := b0.expires,
                     maxTokens := b0.maxTokens }
            else liveB s.time (s.buckets k)
          available := s.available
          time := s.time })) := by
  have h2 : ((config.windowSeconds : ℚ) * 2) / 2 = (config.windowSeconds : ℚ) := by ring
  simp only [TokenBucketAlgorithm.check, decrementToken_eq, InMemoryStorage.getTime,
    h2, Int.cast_one, decide_eq_true_eq]
  split <;> rename_i h <;> simp only [h, if_true, if_false]

end RL

/-! ### Claim theorems -/

namespace RL

/-- C1: for every Fixed Window check with `now = storage.getTime()`, the counter
key is the base key extended with bucket index `⌊now / windowSeconds⌋`; exactly that
counter is incremented by 1 (created with expiry `now + 2·windowSeconds` when absent
or expired, i.e. the call's TTL is `2·windowSeconds`); the request is allowed iff
the resulting count is `≤ config.limit`; and the decision's `resetTime` is the end
of the current bucket, `(index + 1)·windowSeconds`.  Concretely, with `limit = 3`,
`windowSeconds = 10` on a fresh key, three checks at `t = 5` are all allowed, a
fourth check at `t = 5` is denied, and a check at `t = 10` is allowed. -/
theorem fixed_window_spec :
    (∀ (key : String) (config : RateLimitConfig) (s : InMemoryStorage),
      let now := s.getTime
      let i : Int := ⌊now / (config.windowSeconds : ℚ)⌋
      let wk := key ++ ":fw:" ++ toString i
      let cnt := liveValue now (s.counters wk) + 1
      let r := FixedWindowAlgorithm.check key config s
      (∀ k, r.2.counters k =
          (if k = wk then
            some ⟨cnt, liveExpiry now (s.counters wk) (now + (config.windowSeconds : ℚ) * 2)⟩
           else liveC now (s.counters k))) ∧
      (r.1.allowed = true ↔ cnt ≤ config.limit) ∧
      r.1.resetTime = (i + 1) * config.windowSeconds) ∧
    (let cfg : RateLimitConfig := ⟨3, 10, .fixedWindow, true, none⟩
     let r1 := FixedWindowAlgorithm.check "client" cfg (freshStorage 5)
     let r2 := FixedWindowAlgorithm.check "client" cfg r1.2
     let r3 := FixedWindowAlgorithm.check "client" cfg r2.2
     let r4 := FixedWindowAlgorithm.check "client" cfg r3.2
     let r5 := FixedWindowAlgorithm.check "client" cfg { r4.2 with time := 10 }
     r1.1.allowed = true ∧ r2.1.allowed = true ∧ r3.1.allowed = true ∧
       r4.1.allowed = false ∧ r5.1.allowed = true) := by
  constructor
  · intro key config s
    simp only [fixedWindow_check_eq, InMemoryStorage.getTime]
    refine ⟨?_, ?_, ?_⟩
    · intros
      trivial
    · split <;> rename_i h <;> simp [h]
    · split <;> rename_i h <;> simp [h]
  · have hne : "client" ++ ":fw:" ++ toString (1 : Int) ≠
        "client" ++ ":fw:" ++ toString (0 : Int) := by decide
    norm_num [FixedWindowAlgorithm.check, InMemoryStorage.increment,
      InMemoryStorage.cleanupExpired, InMemoryStorage.getTime, freshStorage,
      liveC, liveT, liveB, hne]

/-- C4: for every Sliding Window Log check with `now = storage.getTime()`: the
request is allowed iff the number of live timestamps in `[now - windowSeconds, now]`
is `< config.limit`; `resetTime = ⌈now + windowSeconds⌉` in both outcomes; and the
stored log afterwards consists of the previous timestamps surviving the eviction
(those with `timestamp ≥ now - windowSeconds` and not expired), with `now` appended
(expiry `now + 2·windowSeconds`, i.e. TTL `2·windowSeconds`) exactly when the check
was allowed and nothing recorded otherwise. -/
theorem sliding_window_spec (key : String) (config : RateLimitConfig)
    (s : InMemoryStorage) :
    let now := s.getTime
    let w := (config.windowSeconds : ℚ)
    let wk := key ++ ":sw"
    let cnt : Int := (((s.timestamps wk).filter fun e =>
      decide (now - w ≤ e.timestamp) && decide (e.timestamp ≤ now) &&
        decide (now ≤ e.expires)).length : Int)
    let r := SlidingWindowAlgorithm.check key config s
    (r.1.allowed = true ↔ cnt < config.limit) ∧
    r.1.resetTime = ⌈now + w⌉ ∧
    r.2.timestamps wk =
      ((s.timestamps wk).filter fun e =>
        decide (now - w ≤ e.timestamp) && decide (now ≤ e.expires)) ++
        (if cnt < config.limit then [⟨now, now + w * 2⟩] else []) := by
  simp only [slidingWindow_check_eq, InMemoryStorage.getTime, eq_self_iff_true,
    if_true]
  refine ⟨?_, ?_, ?_⟩ <;> split <;> rename_i h <;> simp_all

/-- C10: the `lastRefillTime` and `newRefillTime` arguments of
`InMemoryStorage.decrementToken` have no effect: two calls differing only in those
two arguments return the same boolean and the same storage state (the refill uses
only the stored bucket, the storage clock and the rate `maxTokens / (ttl / 2)`). -/
theorem decrement_token_ignores_refill_args (s : InMemoryStorage) (key : String)
    (tokens : Int) (lrt1 nrt1 lrt2 nrt2 : ℚ) (maxTokens : Int) (ttl : ℚ) :
    s.decrementToken key tokens lrt1 nrt1 maxTokens ttl =
      s.decrementToken key tokens lrt2 nrt2 maxTokens ttl := rfl

/-- C8: `getHeaders` returns exactly the three headers `X-RateLimit-Limit`,
`X-RateLimit-Remaining` and `X-RateLimit-Reset`, whose values are the decimal
strings of `limit`, `max 0 remaining` and `resetTime`; `getRetryAfter` returns
`max 1 (resetTime - currentTime)`, hence is always `≥ 1`. -/
theorem decision_headers_retry_after (d : RateLimitDecision) (now : Int) :
    d.getHeaders = [("X-RateLimit-Limit", toString d.limit),
                    ("X-RateLimit-Remaining", toString (max 0 d.remaining)),
                    ("X-RateLimit-Reset", toString d.resetTime)] ∧
    d.getHeaders.map Prod.fst =
      ["X-RateLimit-Limit", "X-RateLimit-Remaining", "X-RateLimit-Reset"] ∧
    d.getRetryAfter now = max 1 (d.resetTime - now) ∧
    1 ≤ d.getRetryAfter now :=
  ⟨rfl, rfl, rfl, le_max_left _ _⟩

end RL

namespace RL

/-- C2: when storage is unavailable, `RateLimiter.check` never invokes the
algorithm (the storage state is returned untouched) and returns the synthesized
policy decision: fail-closed gives `allowed = false`, `remaining = 0`,
`algorithm = "unknown"` and metadata `fail_closed = true`; fail-open gives
`allowed = true`, `remaining = limit`, `algorithm = "unknown"` and metadata
`fail_open = true`.  Every registered metrics hook is still invoked with the
decision, and (the model being a total function) no exception is raised. -/
theorem rate_limiter_fail_policy (hooks : List Nat) (s : InMemoryStorage)
    (wallNow : Int) (identifier : String) (config : RateLimitConfig)
    (h : s.available = false) :
    let r := RateLimiter.check hooks s wallNow identifier config
    r.1 = handleStorageUnavailable config wallNow ∧
    r.2.1 = s ∧
    r.2.2 = hooks.map (fun hk => (hk, r.1)) ∧
    (config.failClosed = true →
      r.1.allowed = false ∧ r.1.remaining = 0 ∧ r.1.algorithm = "unknown" ∧
        ("fail_closed", MetaVal.bool true) ∈ r.1.metadata) ∧
    (config.failClosed = false →
      r.1.allowed = true ∧ r.1.remaining = config.limit ∧
        r.1.algorithm = "unknown" ∧
        ("fail_open", MetaVal.bool true) ∈ r.1.metadata) := by
  simp only [RateLimiter.check, InMemoryStorage.isAvailable, h, Bool.not_false,
    if_true]
  refine ⟨by trivial, by trivial, by trivial, ?_, ?_⟩ <;> intro hf <;>
    simp [handleStorageUnavailable, hf, emitMetrics]

/-- Witness for C2 at a concrete unavailable storage and fail-closed config. -/
theorem rate_limiter_fail_policy_witness :
    (let s : InMemoryStorage := { freshStorage 0 with available := false }
     let config : RateLimitConfig := ⟨5, 60, Algorithm.fixedWindow, true, none⟩
     let r := RateLimiter.check [0, 1] s 100 "id" config
     r.1 = handleStorageUnavailable config 100 ∧
     r.2.1 = s ∧
     r.2.2 = [0, 1].map (fun hk => (hk, r.1)) ∧
     (config.failClosed = true →
       r.1.allowed = false ∧ r.1.remaining = 0 ∧ r.1.algorithm = "unknown" ∧
         ("fail_closed", MetaVal.bool true) ∈ r.1.metadata) ∧
     (config.failClosed = false →
       r.1.allowed = true ∧ r.1.remaining = config.limit ∧
         r.1.algorithm = "unknown" ∧
         ("fail_open", MetaVal.bool true) ∈ r.1.metadata)) :=
  rate_limiter_fail_policy [0, 1] _ 100 "id" _ rfl

/-- C5: constructing a `RateLimitConfig` fails (with an error) exactly when
`limit ≤ 0` or `windowSeconds ≤ 0`; a successful construction returns the
configuration with precisely the given field values (nothing clamped), and such
a configuration always satisfies `0 < limit` and `0 < windowSeconds`.
(Immutability is inherent: the config is a plain value.) -/
theorem config_validation_spec (limit windowSeconds : Int) (alg : Algorithm)
    (failClosed : Bool) (kp : Option String) :
    ((∃ msg, mkRateLimitConfig limit windowSeconds alg failClosed kp = .error msg) ↔
      (limit ≤ 0 ∨ windowSeconds ≤ 0)) ∧
    ((0 < limit ∧ 0 < windowSeconds) →
      mkRateLimitConfig limit windowSeconds alg failClosed kp =
        .ok ⟨limit, windowSeconds, alg, failClosed, kp⟩) ∧
    (∀ cfg, mkRateLimitConfig limit windowSeconds alg failClosed kp = .ok cfg →
      cfg = ⟨limit, windowSeconds, alg, failClosed, kp⟩ ∧
        0 < cfg.limit ∧ 0 < cfg.windowSeconds) := by
  by_cases h1 : limit ≤ 0 <;> by_cases h2 : windowSeconds ≤ 0 <;>
    simp [mkRateLimitConfig, h1, h2] <;> omega

/-- Witness for C5: a non-positive limit is rejected, a valid config is
constructed unchanged. -/
theorem config_validation_spec_witness :
    (∃ msg, mkRateLimitConfig 0 10 Algorithm.fixedWindow true none = .error msg) ∧
    mkRateLimitConfig 3 10 Algorithm.fixedWindow true none =
      .ok ⟨3, 10, Algorithm.fixedWindow, true, none⟩ :=
  ⟨(config_validation_spec 0 10 Algorithm.fixedWindow true none).1.mpr
      (Or.inl le_rfl),
   (config_validation_spec 3 10 Algorithm.fixedWindow true none).2.1
      ⟨by norm_num, by norm_num⟩⟩

/-- C6 counterexample: `InMemoryStorage.increment` does not refresh the TTL of
an existing unexpired counter.  A counter created at `t = 0` with `ttl = 10`
(expiry 10), incremented again at `t = 5` with `ttl = 10`, keeps expiry 10
instead of the refreshed `5 + 10 = 15` the claim requires. -/
theorem increment_ttl_counterexample :
    (let s1 := ((freshStorage 0).increment "k" 1 10).2
     let r := ({ s1 with time := 5 }).increment "k" 1 10
     r.1 = 2 ∧ r.2.counters "k" = some ⟨2, 10⟩ ∧
       ¬ ∃ c : Counter, r.2.counters "k" = some c ∧ c.expires = 5 + 10) := by
  norm_num [InMemoryStorage.increment, InMemoryStorage.cleanupExpired,
    InMemoryStorage.getTime, freshStorage, liveC, liveT, liveB]

/-- C6 amended: `increment` adds `delta` to the live counter value (creating the
counter at 0 when absent or expired) and returns the new value; the expiry is set
to `now + ttlSeconds` only when the counter is created, while an existing
unexpired counter keeps its previous expiry (the TTL is not refreshed). -/
theorem increment_spec (s : InMemoryStorage) (key : String) (v : Int) (ttl : ℚ) :
    (s.increment key v ttl).1 = liveValue s.time (s.counters key) + v ∧
    (s.increment key v ttl).2.counters key =
      some ⟨liveValue s.time (s.counters key) + v,
            liveExpiry s.time (s.counters key) (s.time + ttl)⟩ := by
  simp [increment_eq]

end RL

namespace RL

theorem liveValue_nonneg (s : InMemoryStorage)
    (hnn : ∀ k c, s.counters k = some c → 0 ≤ c.value) (k : String) :
    0 ≤ liveValue s.time (s.counters k) := by
  unfold liveValue liveC
  cases hc : s.counters k with
  | none => simp
  | some c =>
    by_cases he : c.expires < s.time
    · simp [he]
    · simpa [he] using hnn k c hc

theorem alg_remaining_range (alg : Algorithm) (key : String)
    (config : RateLimitConfig) (s : InMemoryStorage) (hl : 0 < config.limit)
    (hnn : ∀ k c, s.counters k = some c → 0 ≤ c.value) :
    0 ≤ (alg.check key config s).1.remaining ∧
      (alg.check key config s).1.remaining ≤ config.limit ∧
      ((alg.check key config s).1.allowed = false →
        (alg.check key config s).1.remaining = 0) := by
  cases alg with
  | fixedWindow =>
    have h0 := liveValue_nonneg s hnn
      (key ++ ":fw:" ++ toString ⌊s.time / (config.windowSeconds : ℚ)⌋)
    simp only [Algorithm.check, fixedWindow_check_eq, InMemoryStorage.getTime]
    split <;> rename_i h <;> refine ⟨?_, ?_, ?_⟩ <;> simp_all <;> omega
  | slidingWindow =>
    simp only [Algorithm.check, slidingWindow_check_eq, InMemoryStorage.getTime]
    split <;> rename_i h <;> refine ⟨?_, ?_, ?_⟩ <;> simp_all <;> omega
  | tokenBucket =>
    simp only [Algorithm.check, tokenBucket_check_eq, InMemoryStorage.getTime]
    split <;> rename_i h <;> refine ⟨?_, ?_, ?_⟩ <;> simp_all <;> omega

/-- C9: every decision produced by any of the three algorithms' `check`, and by
`RateLimiter.check` (including the fail-open and fail-closed short-circuit
paths), has `remaining ∈ [0, limit]`; denied decisions carry `remaining = 0`.
(The counters hypothesis is the invariant that stored counter values are
non-negative, which all reachable storage states satisfy.) -/
theorem decision_remaining_range (alg : Algorithm) (key identifier : String)
    (hooks : List Nat) (wallNow : Int) (config : RateLimitConfig)
    (s : InMemoryStorage) (hl : 0 < config.limit)
    (hnn : ∀ k c, s.counters k = some c → 0 ≤ c.value) :
    (0 ≤ (alg.check key config s).1.remaining ∧
      (alg.check key config s).1.remaining ≤ config.limit ∧
      ((alg.check key config s).1.allowed = false →
        (alg.check key config s).1.remaining = 0)) ∧
    (0 ≤ (RateLimiter.check hooks s wallNow identifier config).1.remaining ∧
      (RateLimiter.check hooks s wallNow identifier config).1.remaining ≤
        config.limit ∧
      ((RateLimiter.check hooks s wallNow identifier config).1.allowed = false →
        (RateLimiter.check hooks s wallNow identifier config).1.remaining = 0)) := by
  refine ⟨alg_remaining_range alg key config s hl hnn, ?_⟩
  cases hav : s.available with
  | false =>
    simp only [RateLimiter.check, InMemoryStorage.isAvailable, hav,
      Bool.not_false, if_true]
    cases hf : config.failClosed <;> simp [handleStorageUnavailable, hf] <;> omega
  | true =>
    simp only [RateLimiter.check, InMemoryStorage.isAvailable, hav,
      Bool.not_true, Bool.false_eq_true, if_false]
    exact alg_remaining_range config.algorithm (config.getKey identifier)
      config s hl hnn

/-- Witness for C9 at a concrete configuration and fresh storage. -/
theorem decision_remaining_range_witness :
    (0 ≤ (Algorithm.fixedWindow.check "k" ⟨2, 10, Algorithm.fixedWindow, true, none⟩
        (freshStorage 0)).1.remaining ∧
      (Algorithm.fixedWindow.check "k" ⟨2, 10, Algorithm.fixedWindow, true, none⟩
        (freshStorage 0)).1.remaining ≤ (2 : Int) ∧
      ((Algorithm.fixedWindow.check "k" ⟨2, 10, Algorithm.fixedWindow, true, none⟩
        (freshStorage 0)).1.allowed = false →
        (Algorithm.fixedWindow.check "k" ⟨2, 10, Algorithm.fixedWindow, true, none⟩
          (freshStorage 0)).1.remaining = 0)) ∧
    (0 ≤ (RateLimiter.check [] (freshStorage 0) 7 "id"
        ⟨2, 10, Algorithm.fixedWindow, true, none⟩).1.remaining ∧
      (RateLimiter.check [] (freshStorage 0) 7 "id"
        ⟨2, 10, Algorithm.fixedWindow, true, none⟩).1.remaining ≤ (2 : Int) ∧
      ((RateLimiter.check [] (freshStorage 0) 7 "id"
        ⟨2, 10, Algorithm.fixedWindow, true, none⟩).1.allowed = false →
        (RateLimiter.check [] (freshStorage 0) 7 "id"
          ⟨2, 10, Algorithm.fixedWindow, true, none⟩).1.remaining = 0)) :=
  decision_remaining_range Algorithm.fixedWindow "k" "id" [] 7
    ⟨2, 10, Algorithm.fixedWindow, true, none⟩ (freshStorage 0) (by norm_num)
    (fun k c hc => by simp [freshStorage] at hc)

end RL

namespace RL

/-- Iterated Token Bucket checks on one key, collecting the allowed flags. -/
def tbRun (key : String) (config : RateLimitConfig) : Nat → InMemoryStorage →
    List Bool × InMemoryStorage
  | 0, s => ([], s)
  | n + 1, s =>
    let r := TokenBucketAlgorithm.check key config s
    let rest := tbRun key config n r.2
    (r.1.allowed :: rest.1, rest.2)

theorem tb_min_eval (L j : Int) (h0 : 0 ≤ j) :
    min (L : ℚ) ((L : ℚ) - (j : ℚ)) = (L : ℚ) - (j : ℚ) :=
  min_eq_right (sub_le_self _ (by exact_mod_cast h0))

theorem tb_cond_eval (L j : Int) :
    ((1 : ℚ) ≤ (L : ℚ) ∧ (1 : ℚ) ≤ (L : ℚ) - (j : ℚ)) ↔ (j < L ∧ 1 ≤ L) := by
  constructor
  · rintro ⟨h1, h2⟩
    have hq : (1 : ℚ) ≤ ((L - j : Int) : ℚ) := by push_cast; linarith
    have hi : (1 : Int) ≤ L - j := by exact_mod_cast hq
    have hi1 : (1 : Int) ≤ L := by exact_mod_cast h1
    omega
  · rintro ⟨h, h1⟩
    refine ⟨by exact_mod_cast h1, ?_⟩
    have hq : (1 : ℚ) ≤ ((L - j : Int) : ℚ) :=
      by exact_mod_cast (by omega : (1 : Int) ≤ L - j)
    push_cast at hq
    linarith

theorem tbRun_flags (key : String) (config : RateLimitConfig) (n : Nat) :
    ∀ (s : InMemoryStorage) (j : Int) (e : ℚ),
      0 ≤ j → j ≤ config.limit → ¬ e < s.time →
      s.buckets (key ++ ":bucket") =
        some { tokens := ((config.limit - j : Int) : ℚ), lastRefill := s.time,
               expires := e, maxTokens := config.limit } →
      (tbRun key config n s).1 =
        (List.range n).map (fun (m : Nat) => decide (j + (m : Int) < config.limit)) := by
  induction n with
  | zero => intro s j e h0 hj he hb; simp [tbRun]
  | succ n ih =>
    intro s j e h0 hj he hb
    have hmin : min ((config.limit : Int) : ℚ) (((config.limit - j : Int) : ℚ)) =
        ((config.limit - j : Int) : ℚ) := by
      apply min_eq_right
      exact_mod_cast (by omega : (config.limit - j : Int) ≤ config.limit)
    have hcond : ((1 : ℚ) ≤ ((config.limit - j : Int) : ℚ)) ↔ j < config.limit := by
      rw [show (1 : ℚ) = ((1 : Int) : ℚ) by norm_num, Int.cast_le]
      omega
    have htime : (TokenBucketAlgorithm.check key config s).2.time = s.time := by
      simp [tokenBucket_check_eq, InMemoryStorage.getTime]
    have hp3 : ¬ e < (TokenBucketAlgorithm.check key config s).2.time := by
      rw [htime]; exact he
    simp only [tbRun]
    rw [List.range_succ_eq_map, List.map_cons, List.map_map]
    by_cases hj2 : j < config.limit
    · have hcast : ((config.limit - j : Int) : ℚ) - 1 =
          ((config.limit - (j + 1) : Int) : ℚ) := by push_cast; ring
      have hp4 : (TokenBucketAlgorithm.check key config s).2.buckets
          (key ++ ":bucket") =
          some { tokens := ((config.limit - (j + 1) : Int) : ℚ),
                 lastRefill := (TokenBucketAlgorithm.check key config s).2.time,
                 expires := e, maxTokens := config.limit } := by
        rw [htime]
        simp [tokenBucket_check_eq, InMemoryStorage.getTime, hb, liveBucket,
          liveB, if_neg he]
        rw [if_pos ((tb_cond_eval config.limit j).mpr ⟨hj2, by omega⟩),
          tb_min_eval config.limit j h0]
        push_cast
        ring
      congr 1
      · simp only [tokenBucket_check_eq, InMemoryStorage.getTime, hb, liveBucket,
          liveB, if_neg he]
        simp
        rw [if_pos ((tb_cond_eval config.limit j).mpr ⟨hj2, by omega⟩)]
        simp [hj2]
      · rw [ih _ (j + 1) e (by omega) (by omega) hp3 hp4]
        apply List.map_congr_left
        intro m _
        simp only [Function.comp]
        rw [decide_eq_decide]
        push_cast
        omega
    · have hp4 : (TokenBucketAlgorithm.check key config s).2.buckets
          (key ++ ":bucket") =
          some { tokens := ((config.limit - j : Int) : ℚ),
                 lastRefill := (TokenBucketAlgorithm.check key config s).2.time,
                 expires := e, maxTokens := config.limit } := by
        rw [htime]
        simp [tokenBucket_check_eq, InMemoryStorage.getTime, hb, liveBucket,
          liveB, if_neg he]
        rw [if_neg (fun hc => hj2 ((tb_cond_eval config.limit j).mp hc).1),
          tb_min_eval config.limit j h0]
      congr 1
      · simp only [tokenBucket_check_eq, InMemoryStorage.getTime, hb, liveBucket,
          liveB, if_neg he]
        simp
        rw [if_neg (fun hc => hj2 ((tb_cond_eval config.limit j).mp hc).1)]
        simp [hj2]
      · rw [ih _ j e (by omega) (by omega) hp3 hp4]
        apply List.map_congr_left
        intro m _
        simp only [Function.comp]
        rw [decide_eq_decide]
        push_cast
        omega

/-- C3: on a fresh (absent or expired) key and with the storage clock held
constant, the token bucket starts full at capacity `config.limit`: the `m`-th
consecutive check is allowed exactly when `m < limit`, so exactly `limit` checks
are admitted and the `(limit+1)`-th is denied; moreover the first check leaves
the bucket holding `limit - 1` tokens, witnessing that it started full. -/
theorem token_bucket_burst (key : String) (config : RateLimitConfig)
    (s : InMemoryStorage) (hl : 0 < config.limit) (hw : 0 < config.windowSeconds)
    (hfresh : liveB s.time (s.buckets (key ++ ":bucket")) = none) :
    (∀ n, (tbRun key config n s).1 =
      (List.range n).map (fun (m : Nat) => decide ((m : Int) < config.limit))) ∧
    (TokenBucketAlgorithm.check key config s).2.buckets (key ++ ":bucket") =
      some { tokens := (config.limit : ℚ) - 1, lastRefill := s.time,
             expires := s.time + (config.windowSeconds : ℚ) * 2,
             maxTokens := config.limit } := by
  have hb0 : liveBucket s.time (s.buckets (key ++ ":bucket")) config.limit
      ((config.windowSeconds : ℚ) * 2) =
      { tokens := (config.limit : ℚ), lastRefill := s.time,
        expires := s.time + (config.windowSeconds : ℚ) * 2,
        maxTokens := config.limit } := by
    simp [liveBucket, hfresh]
  have h1L : (1 : ℚ) ≤ (config.limit : ℚ) := by exact_mod_cast hl
  have hexp : ¬ s.time + (config.windowSeconds : ℚ) * 2 < s.time := by
    have : (0 : ℚ) < (config.windowSeconds : ℚ) := by exact_mod_cast hw
    nlinarith
  have htime : (TokenBucketAlgorithm.check key config s).2.time = s.time := by
    simp [tokenBucket_check_eq, InMemoryStorage.getTime]
  have hstep :
      (TokenBucketAlgorithm.check key config s).2.buckets (key ++ ":bucket") =
        some { tokens := (config.limit : ℚ) - 1, lastRefill := s.time,
               expires := s.time + (config.windowSeconds : ℚ) * 2,
               maxTokens := config.limit } := by
    simp [tokenBucket_check_eq, InMemoryStorage.getTime, hb0, h1L]
  refine ⟨?_, hstep⟩
  intro n
  cases n with
  | zero => simp [tbRun]
  | succ n =>
    have hp3 : ¬ s.time + (config.windowSeconds : ℚ) * 2 <
        (TokenBucketAlgorithm.check key config s).2.time := by
      rw [htime]; exact hexp
    have hp4 : (TokenBucketAlgorithm.check key config s).2.buckets
        (key ++ ":bucket") =
        some { tokens := ((config.limit - 1 : Int) : ℚ),
               lastRefill := (TokenBucketAlgorithm.check key config s).2.time,
               expires := s.time + (config.windowSeconds : ℚ) * 2,
               maxTokens := config.limit } := by
      rw [htime, hstep]
      congr 2
      push_cast
      ring
    simp only [tbRun]
    rw [List.range_succ_eq_map, List.map_cons, List.map_map]
    congr 1
    · simp [tokenBucket_check_eq, InMemoryStorage.getTime, hb0, h1L, hl]
    · rw [tbRun_flags key config n _ 1
          (s.time + (config.windowSeconds : ℚ) * 2) (by omega) (by omega)
          hp3 hp4]
      apply List.map_congr_left
      intro m _
      simp only [Function.comp]
      rw [decide_eq_decide]
      push_cast
      omega

/-- Witness for C3: with `limit = 2` on a fresh key at constant clock, three
consecutive checks yield allowed, allowed, denied. -/
theorem token_bucket_burst_witness :
    (tbRun "k" ⟨2, 10, Algorithm.tokenBucket, true, none⟩ 3 (freshStorage 0)).1 =
      [true, true, false] := by
  rw [(token_bucket_burst "k" ⟨2, 10, Algorithm.tokenBucket, true, none⟩
    (freshStorage 0) (by norm_num) (by norm_num) rfl).1 3]
  decide

end RL

/-! ### Storage-key disjointness (string layer for multi-tenant isolation) -/

namespace RL

theorem digitChar_isDigit (n : Nat) (h : n < 10) :
    (Nat.digitChar n).isDigit = true := by
  interval_cases n <;> decide

theorem toDigitsCore_spec (fuel : Nat) : ∀ (n : Nat) (acc : List Char),
    ∃ l, Nat.toDigitsCore 10 fuel n acc = l ++ acc ∧
      (∀ c ∈ l, c.isDigit = true) ∧ (0 < fuel → l ≠ []) := by
  induction fuel with
  | zero =>
    intro n acc
    exact ⟨[], rfl, by simp, by omega⟩
  | succ fuel ih =>
    intro n acc
    have hd : (Nat.digitChar (n % 10)).isDigit = true :=
      digitChar_isDigit _ (Nat.mod_lt _ (by norm_num))
    by_cases hz : n / 10 = 0
    · refine ⟨[Nat.digitChar (n % 10)], by simp [Nat.toDigitsCore, hz], ?_, by simp⟩
      simpa using hd
    · obtain ⟨l, hl, hdig, -⟩ := ih (n / 10) (Nat.digitChar (n % 10) :: acc)
      refine ⟨l ++ [Nat.digitChar (n % 10)], ?_, ?_, by simp⟩
      · rw [show Nat.toDigitsCore 10 (fuel + 1) n acc =
            Nat.toDigitsCore 10 fuel (n / 10) (Nat.digitChar (n % 10) :: acc) by
              simp [Nat.toDigitsCore, hz], hl]
        simp
      · intro c hc
        rcases List.mem_append.mp hc with h | h
        · exact hdig c h
        · simp at h
          subst h
          exact hd

theorem nat_repr_shape (n : Nat) :
    ∃ l d, (Nat.repr n).data = l ++ [d] ∧ (∀ c ∈ l ++ [d], c.isDigit = true) := by
  obtain ⟨l, hl, hdig, hne⟩ := toDigitsCore_spec (n + 1) n []
  have : (Nat.repr n).data = l := by
    show Nat.toDigits 10 n = l
    rw [Nat.toDigits, hl, List.append_nil]
  rcases List.eq_nil_or_concat l with rfl | ⟨L, b, rfl⟩
  · exact absurd rfl (hne (by omega))
  · exact ⟨L, b, by simpa using this, by simpa using hdig⟩

theorem int_toString_shape (n : Int) :
    ∃ l d, (toString n).data = l ++ [d] ∧ d.isDigit = true ∧
      (∀ c ∈ l, c = '-' ∨ c.isDigit = true) := by
  cases n with
  | ofNat m =>
    obtain ⟨l, d, hl, hdig⟩ := nat_repr_shape m
    have he : (toString (Int.ofNat m)).data = (Nat.repr m).data := rfl
    refine ⟨l, d, by rw [he, hl], hdig d (by simp), ?_⟩
    intro c hc
    exact Or.inr (hdig c (by simp [hc]))
  | negSucc m =>
    obtain ⟨l, d, hl, hdig⟩ := nat_repr_shape (m + 1)
    have he : (toString (Int.negSucc m)).data = '-' :: (Nat.repr (m + 1)).data := rfl
    refine ⟨'-' :: l, d, by rw [he, hl]; simp, hdig d (by simp), ?_⟩
    intro c hc
    rcases List.mem_cons.mp hc with rfl | h
    · exact Or.inl rfl
    · exact Or.inr (hdig c (by simp [h]))

theorem isDigit_ne {c x : Char} (h : c.isDigit = true) (hx : x.isDigit = false) :
    c ≠ x := by
  intro he
  subst he
  rw [h] at hx
  cases hx

theorem int_toString_no_colon (n : Int) : ∀ c ∈ (toString n).data, c ≠ ':' := by
  obtain ⟨l, d, hl, hd, hrest⟩ := int_toString_shape n
  intro c hc
  rw [hl] at hc
  rcases List.mem_append.mp hc with h | h
  · rcases hrest c h with rfl | hdig
    · decide
    · exact isDigit_ne hdig (by decide)
  · simp at h
    subst h
    exact isDigit_ne hd (by decide)

theorem sep_split : ∀ (x y a b : List Char),
    (∀ c ∈ x, c ≠ ':') → (∀ c ∈ y, c ≠ ':') →
    x ++ ':' :: a = y ++ ':' :: b → x = y ∧ a = b := by
  intro x
  induction x with
  | nil =>
    intro y a b _ hy h
    cases y with
    | nil => simpa using h
    | cons c y' =>
      exfalso
      simp only [List.nil_append, List.cons_append, List.cons.injEq] at h
      exact hy c (by simp) h.1.symm
  | cons c x' ih =>
    intro y a b hx hy h
    cases y with
    | nil =>
      exfalso
      simp only [List.nil_append, List.cons_append, List.cons.injEq] at h
      exact hx c (by simp) h.1
    | cons c' y' =>
      simp only [List.cons_append, List.cons.injEq] at h
      obtain ⟨rfl, h2⟩ := h
      obtain ⟨h3, h4⟩ := ih y' a b (fun u hu => hx u (by simp [hu]))
        (fun u hu => hy u (by simp [hu])) h2
      exact ⟨by rw [h3], h4⟩

theorem concat_inj_last {l1 l2 : List Char} {c1 c2 : Char}
    (h : l1 ++ [c1] = l2 ++ [c2]) : c1 = c2 := by
  have h1 := List.getLast?_concat (a := c1) l1
  rw [h, List.getLast?_concat] at h1
  exact (Option.some.injEq _ _ ▸ h1).symm

/-- The set of storage keys an algorithm may touch for a qualified key `q`:
`q ++ ":fw:" ++ <window index>`, `q ++ ":sw"`, `q ++ ":bucket"`. -/
def OwnedBy (q k : String) : Prop :=
  (∃ n : Int, k = q ++ ":fw:" ++ toString n) ∨ k = q ++ ":sw" ∨ k = q ++ ":bucket"

end RL

namespace RL

theorem suffix_colon_split {u v a b : List Char}
    (ha : ∀ c ∈ a, c ≠ ':') (hb : ∀ c ∈ b, c ≠ ':')
    (h : u ++ ':' :: a = v ++ ':' :: b) : u = v ∧ a = b := by
  have h' := congrArg List.reverse h
  simp only [List.reverse_append, List.reverse_cons, List.append_assoc,
    List.singleton_append] at h'
  obtain ⟨h1, h2⟩ := sep_split a.reverse b.reverse u.reverse v.reverse
    (fun c hc => ha c (List.mem_reverse.mp hc))
    (fun c hc => hb c (List.mem_reverse.mp hc)) h'
  constructor
  · have := congrArg List.reverse h2
    simpa using this
  · have := congrArg List.reverse h1
    simpa using this

theorem getLast_append_concat (x l : List Char) (d : Char) :
    (x ++ (l ++ [d])).getLast? = some d := by
  rw [← List.append_assoc, List.getLast?_concat]

theorem fw_key_inj {qA qB : String} {n₁ n₂ : Int}
    (h : qA ++ ":fw:" ++ toString n₁ = qB ++ ":fw:" ++ toString n₂) : qA = qB := by
  have hd := congrArg String.data h
  simp only [String.data_append] at hd
  have key : ∀ (q d : List Char), (q ++ (":fw:" : String).data) ++ d =
      (q ++ [':', 'f', 'w']) ++ ':' :: d := by
    intro q d
    show (q ++ [':', 'f', 'w', ':']) ++ d = _
    simp
  rw [key, key] at hd
  obtain ⟨h1, -⟩ := suffix_colon_split (int_toString_no_colon n₁)
    (int_toString_no_colon n₂) hd
  exact String.ext (List.append_cancel_right h1)

theorem fw_ne_sw (qA qB : String) (n : Int) :
    qA ++ ":fw:" ++ toString n ≠ qB ++ ":sw" := by
  intro h
  obtain ⟨l, d, hl, hdig, -⟩ := int_toString_shape n
  have hd := congrArg String.data h
  simp only [String.data_append] at hd
  rw [hl] at hd
  have hlast : some d = some 'w' := by
    rw [← getLast_append_concat (qA.data ++ (":fw:" : String).data) l d, hd]
    exact getLast_append_concat qB.data [':', 's'] 'w'
  have : d = 'w' := by simpa using hlast
  subst this
  exact absurd hdig (by decide)

theorem fw_ne_bucket (qA qB : String) (n : Int) :
    qA ++ ":fw:" ++ toString n ≠ qB ++ ":bucket" := by
  intro h
  obtain ⟨l, d, hl, hdig, -⟩ := int_toString_shape n
  have hd := congrArg String.data h
  simp only [String.data_append] at hd
  rw [hl] at hd
  have hlast : some d = some 't' := by
    rw [← getLast_append_concat (qA.data ++ (":fw:" : String).data) l d, hd]
    exact getLast_append_concat qB.data [':', 'b', 'u', 'c', 'k', 'e'] 't'
  have : d = 't' := by simpa using hlast
  subst this
  exact absurd hdig (by decide)

theorem sw_ne_bucket (qA qB : String) : qA ++ ":sw" ≠ qB ++ ":bucket" := by
  intro h
  have hd := congrArg String.data h
  simp only [String.data_append] at hd
  have h1 : (qA.data ++ [':', 's', 'w']).getLast? = some 'w' :=
    getLast_append_concat qA.data [':', 's'] 'w'
  have h2 : (qB.data ++ [':', 'b', 'u', 'c', 'k', 'e', 't']).getLast? = some 't' :=
    getLast_append_concat qB.data [':', 'b', 'u', 'c', 'k', 'e'] 't'
  have hlast : some 'w' = some 't' := by rw [← h1, hd, h2]
  simp at hlast

theorem sw_inj {qA qB : String} (h : qA ++ ":sw" = qB ++ ":sw") : qA = qB := by
  have hd := congrArg String.data h
  simp only [String.data_append] at hd
  exact String.ext (List.append_cancel_right hd)

theorem bucket_inj {qA qB : String} (h : qA ++ ":bucket" = qB ++ ":bucket") :
    qA = qB := by
  have hd := congrArg String.data h
  simp only [String.data_append] at hd
  exact String.ext (List.append_cancel_right hd)

theorem owned_disjoint {qA qB : String} (hne : qA ≠ qB) {k : String}
    (hA : OwnedBy qA k) (hB : OwnedBy qB k) : False := by
  rcases hA with ⟨n₁, rfl⟩ | rfl | rfl <;>
    rcases hB with ⟨n₂, he⟩ | he | he
  · exact hne (fw_key_inj he)
  · exact fw_ne_sw _ _ _ he
  · exact fw_ne_bucket _ _ _ he
  · exact fw_ne_sw _ _ _ he.symm
  · exact hne (sw_inj he)
  · exact sw_ne_bucket _ _ he
  · exact fw_ne_bucket _ _ _ he.symm
  · exact sw_ne_bucket _ _ he.symm
  · exact hne (bucket_inj he)

end RL

/-! ### Observational agreement of storage states (multi-tenant isolation) -/

namespace RL

/-- Two counter entries are indistinguishable from time `t` on. -/
def cAgree (t : ℚ) (o₁ o₂ : Option Counter) : Prop :=
  ∀ t', t ≤ t' → liveC t' o₁ = liveC t' o₂

/-- Two timestamp logs are indistinguishable from time `t` on. -/
def tsAgree (t : ℚ) (l₁ l₂ : List TsEntry) : Prop :=
  ∀ t', t ≤ t' → liveT t' l₁ = liveT t' l₂

/-- Two bucket entries are indistinguishable from time `t` on. -/
def bAgree (t : ℚ) (o₁ o₂ : Option Bucket) : Prop :=
  ∀ t', t ≤ t' → liveB t' o₁ = liveB t' o₂

theorem cAgree_of_eq {t : ℚ} {o₁ o₂ : Option Counter} (h : o₁ = o₂) :
    cAgree t o₁ o₂ := fun t' _ => by rw [h]

theorem tsAgree_of_eq {t : ℚ} {l₁ l₂ : List TsEntry} (h : l₁ = l₂) :
    tsAgree t l₁ l₂ := fun t' _ => by rw [h]

theorem bAgree_of_eq {t : ℚ} {o₁ o₂ : Option Bucket} (h : o₁ = o₂) :
    bAgree t o₁ o₂ := fun t' _ => by rw [h]

theorem cAgree_trans {t : ℚ} {o₁ o₂ o₃ : Option Counter}
    (h₁ : cAgree t o₁ o₂) (h₂ : cAgree t o₂ o₃) : cAgree t o₁ o₃ :=
  fun t' ht => (h₁ t' ht).trans (h₂ t' ht)

theorem tsAgree_trans {t : ℚ} {l₁ l₂ l₃ : List TsEntry}
    (h₁ : tsAgree t l₁ l₂) (h₂ : tsAgree t l₂ l₃) : tsAgree t l₁ l₃ :=
  fun t' ht => (h₁ t' ht).trans (h₂ t' ht)

theorem bAgree_trans {t : ℚ} {o₁ o₂ o₃ : Option Bucket}
    (h₁ : bAgree t o₁ o₂) (h₂ : bAgree t o₂ o₃) : bAgree t o₁ o₃ :=
  fun t' ht => (h₁ t' ht).trans (h₂ t' ht)

theorem cAgree_mono {t u : ℚ} {o₁ o₂ : Option Counter} (htu : t ≤ u)
    (h : cAgree t o₁ o₂) : cAgree u o₁ o₂ :=
  fun t' ht => h t' (le_trans htu ht)

theorem tsAgree_mono {t u : ℚ} {l₁ l₂ : List TsEntry} (htu : t ≤ u)
    (h : tsAgree t l₁ l₂) : tsAgree u l₁ l₂ :=
  fun t' ht => h t' (le_trans htu ht)

theorem bAgree_mono {t u : ℚ} {o₁ o₂ : Option Bucket} (htu : t ≤ u)
    (h : bAgree t o₁ o₂) : bAgree u o₁ o₂ :=
  fun t' ht => h t' (le_trans htu ht)

theorem cAgree_liveC_left (t : ℚ) (o : Option Counter) :
    cAgree t (liveC t o) o := fun t' ht => liveC_liveC ht o

theorem tsAgree_liveT_left (t : ℚ) (l : List TsEntry) :
    tsAgree t (liveT t l) l := fun t' ht => liveT_liveT ht l

theorem bAgree_liveB_left (t : ℚ) (o : Option Bucket) :
    bAgree t (liveB t o) o := fun t' ht => liveB_liveB ht o

theorem cAgree_liveC {t : ℚ} {o₁ o₂ : Option Counter} (h : cAgree t o₁ o₂) :
    cAgree t (liveC t o₁) (liveC t o₂) := fun t' ht => by
  rw [liveC_liveC ht, liveC_liveC ht]
  exact h t' ht

theorem tsAgree_liveT {t : ℚ} {l₁ l₂ : List TsEntry} (h : tsAgree t l₁ l₂) :
    tsAgree t (liveT t l₁) (liveT t l₂) := fun t' ht => by
  rw [liveT_liveT ht, liveT_liveT ht]
  exact h t' ht

theorem bAgree_liveB {t : ℚ} {o₁ o₂ : Option Bucket} (h : bAgree t o₁ o₂) :
    bAgree t (liveB t o₁) (liveB t o₂) := fun t' ht => by
  rw [liveB_liveB ht, liveB_liveB ht]
  exact h t' ht

theorem tsAgree_append {t : ℚ} {l₁ l₂ : List TsEntry} (m : List TsEntry)
    (h : tsAgree t l₁ l₂) : tsAgree t (l₁ ++ m) (l₂ ++ m) := fun t' ht => by
  simp only [liveT, List.filter_append]
  rw [show l₁.filter (fun e => decide (t' ≤ e.expires)) =
    l₂.filter (fun e => decide (t' ≤ e.expires)) from h t' ht]

theorem filter_restrict (t : ℚ) (p : TsEntry → Bool) (l : List TsEntry) :
    (l.filter fun e => p e && decide (t ≤ e.expires)) = (liveT t l).filter p := by
  simp only [liveT, List.filter_filter]

end RL

namespace RL

theorem check_preserves (alg : Algorithm) (q : String) (cfg : RateLimitConfig)
    (s : InMemoryStorage) :
    (alg.check q cfg s).2.available = s.available ∧
      (alg.check q cfg s).2.time = s.time := by
  cases alg <;>
    simp [Algorithm.check, fixedWindow_check_eq, slidingWindow_check_eq,
      tokenBucket_check_eq, InMemoryStorage.getTime]

theorem check_frame (alg : Algorithm) (q : String) (cfg : RateLimitConfig)
    (s : InMemoryStorage) (k : String) (hk : ¬ OwnedBy q k) :
    cAgree s.time ((alg.check q cfg s).2.counters k) (s.counters k) ∧
    tsAgree s.time ((alg.check q cfg s).2.timestamps k) (s.timestamps k) ∧
    bAgree s.time ((alg.check q cfg s).2.buckets k) (s.buckets k) := by
  cases alg with
  | fixedWindow =>
    have hkw : k ≠ q ++ ":fw:" ++
        toString (⌊s.time / (cfg.windowSeconds : ℚ)⌋ : Int) :=
      fun h => hk (Or.inl ⟨_, h⟩)
    simp only [Algorithm.check, fixedWindow_check_eq, InMemoryStorage.getTime]
    exact ⟨by simp only [if_neg hkw]; exact cAgree_liveC_left _ _,
      tsAgree_liveT_left _ _, bAgree_liveB_left _ _⟩
  | slidingWindow =>
    have hkw : k ≠ q ++ ":sw" := fun h => hk (Or.inr (Or.inl h))
    simp only [Algorithm.check, slidingWindow_check_eq, InMemoryStorage.getTime]
    exact ⟨cAgree_liveC_left _ _,
      by simp only [if_neg hkw]; exact tsAgree_liveT_left _ _,
      bAgree_liveB_left _ _⟩
  | tokenBucket =>
    have hkw : k ≠ q ++ ":bucket" := fun h => hk (Or.inr (Or.inr h))
    simp only [Algorithm.check, tokenBucket_check_eq, InMemoryStorage.getTime]
    exact ⟨cAgree_liveC_left _ _, tsAgree_liveT_left _ _,
      by simp only [if_neg hkw]; exact bAgree_liveB_left _ _⟩

theorem check_congr (alg : Algorithm) (q : String) (cfg : RateLimitConfig)
    (s₁ s₂ : InMemoryStorage) (ht : s₂.time = s₁.time)
    (hagree : ∀ k, OwnedBy q k →
      cAgree s₁.time (s₁.counters k) (s₂.counters k) ∧
      tsAgree s₁.time (s₁.timestamps k) (s₂.timestamps k) ∧
      bAgree s₁.time (s₁.buckets k) (s₂.buckets k)) :
    (alg.check q cfg s₁).1 = (alg.check q cfg s₂).1 ∧
    ∀ k, cAgree s₁.time (s₁.counters k) (s₂.counters k) →
      tsAgree s₁.time (s₁.timestamps k) (s₂.timestamps k) →
      bAgree s₁.time (s₁.buckets k) (s₂.buckets k) →
      cAgree s₁.time ((alg.check q cfg s₁).2.counters k)
          ((alg.check q cfg s₂).2.counters k) ∧
        tsAgree s₁.time ((alg.check q cfg s₁).2.timestamps k)
          ((alg.check q cfg s₂).2.timestamps k) ∧
        bAgree s₁.time ((alg.check q cfg s₁).2.buckets k)
          ((alg.check q cfg s₂).2.buckets k) := by
  cases alg with
  | fixedWindow =>
    simp only [Algorithm.check, fixedWindow_check_eq, InMemoryStorage.getTime, ht]
    set wk := q ++ ":fw:" ++
      toString (⌊s₁.time / (cfg.windowSeconds : ℚ)⌋ : Int) with hwk
    obtain ⟨hc, -, -⟩ := hagree wk (Or.inl ⟨_, hwk⟩)
    have hlive : liveC s₁.time (s₁.counters wk) = liveC s₁.time (s₂.counters wk) :=
      hc _ le_rfl
    have hlv : liveValue s₁.time (s₁.counters wk) =
        liveValue s₁.time (s₂.counters wk) := by
      unfold liveValue
      rw [hlive]
    have hle : ∀ d, liveExpiry s₁.time (s₁.counters wk) d =
        liveExpiry s₁.time (s₂.counters wk) d := by
      intro d
      unfold liveExpiry
      rw [hlive]
    refine ⟨by rw [hlv], ?_⟩
    intro k hck hts hbk
    refine ⟨?_, tsAgree_liveT hts, bAgree_liveB hbk⟩
    by_cases hkw2 : k = wk
    · subst hkw2
      simp only [if_pos rfl]
      exact cAgree_of_eq (by simp [hlv, hle])
    · simp only [if_neg hkw2]
      exact cAgree_liveC hck
  | slidingWindow =>
    simp only [Algorithm.check, slidingWindow_check_eq, InMemoryStorage.getTime, ht]
    set wk := q ++ ":sw" with hwk
    obtain ⟨-, hts0, -⟩ := hagree wk (Or.inr (Or.inl hwk))
    have hl : liveT s₁.time (s₁.timestamps wk) = liveT s₁.time (s₂.timestamps wk) :=
      hts0 _ le_rfl
    have hkept : ((s₁.timestamps wk).filter fun e =>
        decide (s₁.time - (cfg.windowSeconds : ℚ) ≤ e.timestamp) &&
          decide (s₁.time ≤ e.expires)) =
        ((s₂.timestamps wk).filter fun e =>
          decide (s₁.time - (cfg.windowSeconds : ℚ) ≤ e.timestamp) &&
            decide (s₁.time ≤ e.expires)) := by
      rw [filter_restrict, filter_restrict, hl]
    have hcnt : ((s₁.timestamps wk).filter fun e =>
        decide (s₁.time - (cfg.windowSeconds : ℚ) ≤ e.timestamp) &&
          decide (e.timestamp ≤ s₁.time) && decide (s₁.time ≤ e.expires)) =
        ((s₂.timestamps wk).filter fun e =>
          decide (s₁.time - (cfg.windowSeconds : ℚ) ≤ e.timestamp) &&
            decide (e.timestamp ≤ s₁.time) && decide (s₁.time ≤ e.expires)) := by
      rw [filter_restrict, filter_restrict, hl]
    refine ⟨by rw [hcnt], ?_⟩
    intro k hck hts hbk
    refine ⟨cAgree_liveC hck, ?_, bAgree_liveB hbk⟩
    by_cases hkw2 : k = wk
    · subst hkw2
      refine tsAgree_of_eq ?_
      simp only [eq_self_iff_true, if_true]
      rw [hkept, hcnt]
    · simp only [if_neg hkw2]
      exact tsAgree_liveT hts
  | tokenBucket =>
    simp only [Algorithm.check, tokenBucket_check_eq, InMemoryStorage.getTime, ht]
    set bk := q ++ ":bucket" with hbkk
    obtain ⟨-, -, hb0⟩ := hagree bk (Or.inr (Or.inr hbkk))
    have hlb : liveB s₁.time (s₁.buckets bk) = liveB s₁.time (s₂.buckets bk) :=
      hb0 _ le_rfl
    have hbucket : liveBucket s₁.time (s₁.buckets bk) cfg.limit
        ((cfg.windowSeconds : ℚ) * 2) =
        liveBucket s₁.time (s₂.buckets bk) cfg.limit
          ((cfg.windowSeconds : ℚ) * 2) := by
      unfold liveBucket
      rw [hlb]
    refine ⟨by rw [hbucket], ?_⟩
    intro k hck hts hbk2
    refine ⟨cAgree_liveC hck, tsAgree_liveT hts, ?_⟩
    by_cases hkb : k = bk
    · subst hkb
      simp only [if_pos rfl]
      exact bAgree_of_eq (by simp [hbucket])
    · simp only [if_neg hkb]
      exact bAgree_liveB hbk2

end RL

namespace RL

/-- One check request in a run: storage-clock time `t`, orchestrator wall clock
`wall`, and which of the two tenants (`isB`) issues it. -/
structure CheckEvent where
  t : ℚ
  wall : Int
  isB : Bool

/-- Run a sequence of checks through `RateLimiter.check` against one shared
storage, collecting the decisions of tenant B's checks. -/
def runSeq (cA cB : RateLimitConfig) (idf : String) :
    List CheckEvent → InMemoryStorage → List RateLimitDecision × InMemoryStorage
  | [], s => ([], s)
  | ev :: evs, s =>
    let r := RateLimiter.check [] { s with time := ev.t } ev.wall idf
      (if ev.isB then cB else cA)
    let rest := runSeq cA cB idf evs r.2.1
    ((if ev.isB then [r.1] else []) ++ rest.1, rest.2)

theorem limiter_state (hooks : List Nat) (s : InMemoryStorage) (wall : Int)
    (idf : String) (cfg : RateLimitConfig) :
    (RateLimiter.check hooks s wall idf cfg).2.1 =
      (if s.available = true then (cfg.algorithm.check (cfg.getKey idf) cfg s).2
       else s) := by
  cases h : s.available <;>
    simp [RateLimiter.check, InMemoryStorage.isAvailable, h]

theorem limiter_decision (hooks : List Nat) (s : InMemoryStorage) (wall : Int)
    (idf : String) (cfg : RateLimitConfig) :
    (RateLimiter.check hooks s wall idf cfg).1 =
      (if s.available = true then (cfg.algorithm.check (cfg.getKey idf) cfg s).1
       else handleStorageUnavailable cfg wall) := by
  cases h : s.available <;>
    simp [RateLimiter.check, InMemoryStorage.isAvailable, h]

/-- The two storages are indistinguishable from time `t` on, outside the keys
owned by qualified key `qA`. -/
def AgreeO (qA : String) (t : ℚ) (s₁ s₂ : InMemoryStorage) : Prop :=
  s₁.available = s₂.available ∧
  ∀ k, ¬ OwnedBy qA k →
    cAgree t (s₁.counters k) (s₂.counters k) ∧
    tsAgree t (s₁.timestamps k) (s₂.timestamps k) ∧
    bAgree t (s₁.buckets k) (s₂.buckets k)

theorem runSeq_drop_A (cA cB : RateLimitConfig) (idf : String)
    (hq : cA.getKey idf ≠ cB.getKey idf) :
    ∀ (evs : List CheckEvent), evs.Pairwise (fun a b => a.t ≤ b.t) →
    ∀ (s₁ s₂ : InMemoryStorage),
      (∀ ev ∈ evs, AgreeO (cA.getKey idf) ev.t s₁ s₂) →
      (runSeq cA cB idf evs s₁).1 =
        (runSeq cA cB idf (evs.filter (·.isB)) s₂).1 := by
  intro evs
  induction evs with
  | nil =>
    intro _ s₁ s₂ _
    simp [runSeq]
  | cons ev evs ih =>
    intro hpw s₁ s₂ hinv
    obtain ⟨hhead, hpw2⟩ := List.pairwise_cons.mp hpw
    obtain ⟨hav, hks⟩ := hinv ev (by simp)
    cases hb : ev.isB with
    | false =>
      have hfilter : (ev :: evs).filter (·.isB) = evs.filter (·.isB) := by
        simp [List.filter_cons, hb]
      rw [hfilter]
      simp only [runSeq, hb, if_false, Bool.false_eq_true, List.nil_append]
      apply ih hpw2
      intro ev2 hm
      obtain ⟨hav2, hks2⟩ := hinv ev2 (by simp [hm])
      have hle : ev.t ≤ ev2.t := hhead ev2 hm
      rw [limiter_state]
      by_cases hava : s₁.available = true
      · rw [if_pos hava]
        constructor
        · rw [(check_preserves cA.algorithm (cA.getKey idf) cA _).1]
          exact hav2
        · intro k hk
          obtain ⟨f1, f2, f3⟩ :=
            check_frame cA.algorithm (cA.getKey idf) cA { s₁ with time := ev.t } k hk
          obtain ⟨g1, g2, g3⟩ := hks2 k hk
          exact ⟨cAgree_trans (cAgree_mono hle f1) g1,
            tsAgree_trans (tsAgree_mono hle f2) g2,
            bAgree_trans (bAgree_mono hle f3) g3⟩
      · rw [if_neg hava]
        exact ⟨hav2, hks2⟩
    | true =>
      have hfilter : (ev :: evs).filter (·.isB) = ev :: evs.filter (·.isB) := by
        simp [List.filter_cons, hb]
      rw [hfilter]
      simp only [runSeq, hb, if_true, List.cons_append, List.singleton_append]
      by_cases hava : s₁.available = true
      · have hsa2 : s₂.available = true := by rw [← hav]; exact hava
        have hagreeB : ∀ k, OwnedBy (cB.getKey idf) k →
            cAgree ({ s₁ with time := ev.t } : InMemoryStorage).time
              (({ s₁ with time := ev.t } : InMemoryStorage).counters k)
              (({ s₂ with time := ev.t } : InMemoryStorage).counters k) ∧
            tsAgree ({ s₁ with time := ev.t } : InMemoryStorage).time
              (({ s₁ with time := ev.t } : InMemoryStorage).timestamps k)
              (({ s₂ with time := ev.t } : InMemoryStorage).timestamps k) ∧
            bAgree ({ s₁ with time := ev.t } : InMemoryStorage).time
              (({ s₁ with time := ev.t } : InMemoryStorage).buckets k)
              (({ s₂ with time := ev.t } : InMemoryStorage).buckets k) :=
          fun k hkB => hks k (fun hkA => owned_disjoint hq hkA hkB)
        have hcongr := check_congr cB.algorithm (cB.getKey idf) cB
          { s₁ with time := ev.t } { s₂ with time := ev.t } rfl hagreeB
        congr 1
        · rw [limiter_decision, limiter_decision, if_pos hava, if_pos hsa2]
          exact hcongr.1
        · apply ih hpw2
          intro ev2 hm
          have hle : ev.t ≤ ev2.t := hhead ev2 hm
          rw [limiter_state, limiter_state, if_pos hava, if_pos hsa2]
          constructor
          · rw [(check_preserves cB.algorithm (cB.getKey idf) cB _).1,
              (check_preserves cB.algorithm (cB.getKey idf) cB _).1]
            exact hav
          · intro k hk
            obtain ⟨g1, g2, g3⟩ := hks k hk
            obtain ⟨p1, p2, p3⟩ := hcongr.2 k g1 g2 g3
            exact ⟨cAgree_mono hle p1, tsAgree_mono hle p2, bAgree_mono hle p3⟩
      · have hsa2 : ¬ s₂.available = true := by rw [← hav]; exact hava
        congr 1
        · rw [limiter_decision, limiter_decision, if_neg hava, if_neg hsa2]
        · apply ih hpw2
          intro ev2 hm
          rw [limiter_state, limiter_state, if_neg hava, if_neg hsa2]
          obtain ⟨a1, a2⟩ := hinv ev2 (by simp [hm])
          exact ⟨a1, a2⟩

theorem colon_append_inj {pA pB idf : String}
    (h : pA ++ ":" ++ idf = pB ++ ":" ++ idf) : pA = pB := by
  have hd := congrArg String.data h
  simp only [String.data_append] at hd
  exact String.ext (List.append_cancel_right (List.append_cancel_right hd))

/-- C7: multi-tenant isolation. For two configurations that differ only in
their (non-null, distinct) key prefixes and a single identifier, `getKey`
yields distinct storage keys, and the decisions that tenant B's checks
receive in any time-ordered interleaved run (over `RateLimiter.check` on a
shared storage, starting from an empty storage) are exactly the decisions B
receives when tenant A's checks — including any quota exhaustion — are
removed from the run. -/
theorem multi_tenant_isolation
    (limit windowSeconds : Int) (alg : Algorithm) (fc : Bool)
    (pA pB idf : String) (hne : pA ≠ pB)
    (evs : List CheckEvent) (hpw : evs.Pairwise (fun a b => a.t ≤ b.t))
    (t0 : ℚ) :
    (RateLimitConfig.mk limit windowSeconds alg fc (some pA)).getKey idf ≠
      (RateLimitConfig.mk limit windowSeconds alg fc (some pB)).getKey idf ∧
    (runSeq (RateLimitConfig.mk limit windowSeconds alg fc (some pA))
        (RateLimitConfig.mk limit windowSeconds alg fc (some pB)) idf evs
        (freshStorage t0)).1 =
      (runSeq (RateLimitConfig.mk limit windowSeconds alg fc (some pA))
        (RateLimitConfig.mk limit windowSeconds alg fc (some pB)) idf
        (evs.filter (·.isB)) (freshStorage t0)).1 := by
  have hkey : (RateLimitConfig.mk limit windowSeconds alg fc (some pA)).getKey idf ≠
      (RateLimitConfig.mk limit windowSeconds alg fc (some pB)).getKey idf := by
    intro h
    exact hne (colon_append_inj h)
  refine ⟨hkey, ?_⟩
  apply runSeq_drop_A _ _ _ hkey evs hpw
  intro ev _
  exact ⟨rfl, fun k _ => ⟨cAgree_of_eq rfl, tsAgree_of_eq rfl, bAgree_of_eq rfl⟩⟩

/-- Concrete instance of `multi_tenant_isolation`: prefixes "a" and "b",
identifier "client", a three-event run (A at t=1, B at t=2, A at t=3). -/
theorem multi_tenant_isolation_witness :
    ("a" : String) ≠ "b" ∧
    ([⟨1, 1, false⟩, ⟨2, 2, true⟩, ⟨3, 3, false⟩] : List CheckEvent).Pairwise
      (fun a b => a.t ≤ b.t) ∧
    ((RateLimitConfig.mk 3 10 .fixedWindow false (some "a")).getKey "client" ≠
      (RateLimitConfig.mk 3 10 .fixedWindow false (some "b")).getKey "client" ∧
    (runSeq (RateLimitConfig.mk 3 10 .fixedWindow false (some "a"))
        (RateLimitConfig.mk 3 10 .fixedWindow false (some "b")) "client"
        [⟨1, 1, false⟩, ⟨2, 2, true⟩, ⟨3, 3, false⟩] (freshStorage 0)).1 =
      (runSeq (RateLimitConfig.mk 3 10 .fixedWindow false (some "a"))
        (RateLimitConfig.mk 3 10 .fixedWindow false (some "b")) "client"
        (([⟨1, 1, false⟩, ⟨2, 2, true⟩, ⟨3, 3, false⟩] : List CheckEvent).filter
          (·.isB)) (freshStorage 0)).1) :=
  ⟨by decide, by norm_num [List.pairwise_cons],
    multi_tenant_isolation 3 10 .fixedWindow false "a" "b" "client" (by decide)
      [⟨1, 1, false⟩, ⟨2, 2, true⟩, ⟨3, 3, false⟩]
      (by norm_num [List.pairwise_cons]) 0⟩

end RL
